import Mathlib

/-!
# Verification of plotman's archive-job telemetry engine

Shallow embedding of `src/plotman/archive_job.py`: the ingress/egress
archive-job discovery loops, the filename/command-line grammars (embedded as
deterministic parsers equivalent to the anchored regexes in the source), the
registry reconciliation (`get_archive_running_jobs`), and the rate / ETA /
progress estimators.

Python floats that hold POSIX timestamps and rates are modelled as `ℚ`;
Python ints as `ℤ`/`ℕ`; Python exceptions as `Except Unit` / `Option`
(`.error`/`none` marks a raised exception where noted).  Probe output
(`find` stdout lines, process command lines, process creation times) and the
current wall-clock time are passed in as explicit parameters, since the
Python code obtains them by I/O.
-/

/-! ## Character and string primitives -/

/-- Python's regex class `[\w\d]` (`\w` with ASCII word characters):
letters, digits and underscore. -/
def isWordChar (c : Char) : Bool := c.isAlphanum || c = '_'

/-- Numeric value of a decimal digit character. -/
def digitVal (c : Char) : Nat := c.toNat - 48

/-- Value of a list of decimal digit characters, most significant first. -/
def digitsToNat (ds : List Char) : Nat :=
  ds.foldl (fun a c => 10 * a + digitVal c) 0

/-- Read exactly `w` decimal digits from the front of `cs`, accumulating
into `acc`.  Models a fixed-width `(\d{w})` regex group followed by
`int(...)` conversion. -/
def readFixedNat : Nat → Nat → List Char → Option (Nat × List Char)
  | 0, acc, cs => some (acc, cs)
  | _ + 1, _, [] => none
  | w + 1, acc, c :: cs =>
    if c.isDigit then readFixedNat w (10 * acc + digitVal c) cs else none

/-- Render `n % 10^w` as exactly `w` decimal digits, zero padded,
most significant first. -/
def natToDigits : Nat → Nat → List Char
  | 0, _ => []
  | w + 1, n => Nat.digitChar (n / 10 ^ w) :: natToDigits w (n % 10 ^ w)

/-- Consume one expected literal character. -/
def expectChar (c : Char) : List Char → Option (List Char)
  | [] => none
  | x :: xs => if x = c then some xs else none

/-- Consume an expected literal prefix. -/
def expectStr : List Char → List Char → Option (List Char)
  | [], cs => some cs
  | _ :: _, [] => none
  | p :: ps, c :: cs => if c = p then expectStr ps cs else none

/-- Split off the maximal leading run of word characters.  Models a greedy
`([\w\d]+)` group whose continuation starts with a non-word character. -/
def takeWordRun : List Char → List Char × List Char
  | [] => ([], [])
  | c :: cs =>
    if isWordChar c then
      let (w, r) := takeWordRun cs
      (c :: w, r)
    else ([], c :: cs)

/-- Drop leading whitespace. -/
def dropWs : List Char → List Char
  | [] => []
  | c :: cs => if c.isWhitespace then dropWs cs else c :: cs

/-- Python `str.strip()`: drop whitespace from both ends. -/
def pyStrip (cs : List Char) : List Char :=
  (dropWs (dropWs cs).reverse).reverse

/-- Helper for `pyWords`: `cur` holds the reversed current word. -/
def pyWordsAux (cur : List Char) : List Char → List (List Char)
  | [] => if cur.isEmpty then [] else [cur.reverse]
  | c :: cs =>
    if c.isWhitespace then
      if cur.isEmpty then pyWordsAux [] cs else cur.reverse :: pyWordsAux [] cs
    else pyWordsAux (c :: cur) cs

/-- Python `str.split()` with no arguments: split on runs of whitespace,
discarding empty pieces. -/
def pyWords (cs : List Char) : List (List Char) := pyWordsAux [] cs

/-- Python `str.split(sep)` for a single-character separator (used for
`split('=')`): every occurrence of `sep` produces a boundary, empty pieces
are kept. -/
def splitOnCharAux (sep : Char) (cur : List Char) : List Char → List (List Char)
  | [] => [cur.reverse]
  | c :: cs =>
    if c = sep then cur.reverse :: splitOnCharAux sep [] cs
    else splitOnCharAux sep (c :: cur) cs

def splitOnChar (sep : Char) (cs : List Char) : List (List Char) :=
  splitOnCharAux sep [] cs

/-- Python `int(str)`: strip whitespace, then an optional single sign
followed by a nonempty digit string; `none` models the `ValueError` raised
otherwise.  (Underscore digit grouping is not modelled; no input produced by
the probes uses it.) -/
def readNatAll (ds : List Char) : Option Nat :=
  if ds.isEmpty || !ds.all Char.isDigit then none else some (digitsToNat ds)

def pyInt? (cs : List Char) : Option Int :=
  match pyStrip cs with
  | '+' :: ds => (readNatAll ds).map (fun n => (n : Int))
  | '-' :: ds => (readNatAll ds).map (fun n => -(n : Int))
  | ds => (readNatAll ds).map (fun n => (n : Int))

/-- Does `needle` occur at the start of `hay`? -/
def listStartsWith : List Char → List Char → Bool
  | [], _ => true
  | _ :: _, [] => false
  | a :: as, b :: bs => (b = a) && listStartsWith as bs

/-- Python's `needle in hay` on strings: contiguous substring containment. -/
def pyIn (needle : List Char) : List Char → Bool
  | [] => needle.isEmpty
  | c :: cs => listStartsWith needle (c :: cs) || pyIn needle cs

/-- Python `' '.join(tokens)`. -/
def joinSpaces : List String → List Char
  | [] => []
  | [s] => s.toList
  | s :: rest => s.toList ++ ' ' :: joinSpaces rest

/-! ## The ingress filename grammar

`archive_job.py:132` matches destination marker files against
`^{path}(\d{3})/\.plot-k(\d{2})-(\d{4})-(\d{2})-(\d{2})-(\d{2})-(\d{2})-([\w\d]+)\.plot\.([\w\d]+)$`.
All groups are fixed width or maximal word-character runs delimited by
non-word literals, so the backtracking regex is equivalent to the
deterministic left-to-right parser below.  The runtime `path` fragment is
treated as a literal prefix. -/

/-- The nine fields captured by the ingress filename regex. -/
structure PlotFields where
  disk : Nat
  plot_k : Nat
  year : Nat
  month : Nat
  day : Nat
  hour : Nat
  minute : Nat
  plot_id : String
  job_id : String
deriving DecidableEq, Repr

/-- The literal `/.plot-k` between the disk index and the k size. -/
def litSlashDotPlotK : List Char := ['/', '.', 'p', 'l', 'o', 't', '-', 'k']

/-- The literal `.plot.` between the plot id and the job id. -/
def litDotPlotDot : List Char := ['.', 'p', 'l', 'o', 't', '.']

/-- Parse the part of an ingress marker path after the root prefix:
`(\d{3})/\.plot-k(\d{2})-(\d{4})-(\d{2})-(\d{2})-(\d{2})-(\d{2})-([\w\d]+)\.plot\.([\w\d]+)$`. -/
def parsePlotName (cs : List Char) : Option PlotFields :=
  match readFixedNat 3 0 cs with
  | none => none
  | some (disk, cs) =>
  match expectStr litSlashDotPlotK cs with
  | none => none
  | some cs =>
  match readFixedNat 2 0 cs with
  | none => none
  | some (k, cs) =>
  match expectChar '-' cs with
  | none => none
  | some cs =>
  match readFixedNat 4 0 cs with
  | none => none
  | some (year, cs) =>
  match expectChar '-' cs with
  | none => none
  | some cs =>
  match readFixedNat 2 0 cs with
  | none => none
  | some (month, cs) =>
  match expectChar '-' cs with
  | none => none
  | some cs =>
  match readFixedNat 2 0 cs with
  | none => none
  | some (day, cs) =>
  match expectChar '-' cs with
  | none => none
  | some cs =>
  match readFixedNat 2 0 cs with
  | none => none
  | some (hour, cs) =>
  match expectChar '-' cs with
  | none => none
  | some cs =>
  match readFixedNat 2 0 cs with
  | none => none
  | some (minute, cs) =>
  match expectChar '-' cs with
  | none => none
  | some cs =>
  match takeWordRun cs with
  | (pid, cs) =>
  if pid.isEmpty then none else
  match expectStr litDotPlotDot cs with
  | none => none
  | some cs =>
  match takeWordRun cs with
  | (jid, rest) =>
  if jid.isEmpty || !rest.isEmpty then none
  else some ⟨disk, k, year, month, day, hour, minute, pid.asString, jid.asString⟩

/-- Full ingress path match: the runtime root `path` as a literal prefix,
then the marker-file grammar. -/
def parsePlotPath (root cs : List Char) : Option PlotFields :=
  match expectStr root cs with
  | none => none
  | some rest => parsePlotName rest

/-- The canonical rendering of `PlotFields` as a marker path body
(everything after the root prefix). -/
def encodePlotBody (f : PlotFields) : List Char :=
  natToDigits 3 f.disk ++ litSlashDotPlotK ++ natToDigits 2 f.plot_k ++
    '-' :: natToDigits 4 f.year ++ '-' :: natToDigits 2 f.month ++
    '-' :: natToDigits 2 f.day ++ '-' :: natToDigits 2 f.hour ++
    '-' :: natToDigits 2 f.minute ++
    '-' :: (f.plot_id.toList ++ litDotPlotDot ++ f.job_id.toList)

/-- String-level parse, root treated literally. -/
def parsePlotPathStr (root s : String) : Option PlotFields :=
  parsePlotPath root.toList s.toList

/-- String-level rendering of a conforming marker path. -/
def encodePlotPathStr (root : String) (f : PlotFields) : String :=
  root ++ (encodePlotBody f).asString

/-- Fields that the code's regex can produce: numeric fields within their
fixed widths, identifiers nonempty runs of word characters. -/
def wfFieldsB (f : PlotFields) : Bool :=
  decide (f.disk < 1000) && decide (f.plot_k < 100) &&
    decide (f.year < 10000) && decide (f.month < 100) &&
    decide (f.day < 100) && decide (f.hour < 100) && decide (f.minute < 100) &&
    !f.plot_id.toList.isEmpty && f.plot_id.toList.all isWordChar &&
    !f.job_id.toList.isEmpty && f.job_id.toList.all isWordChar

/-- Fields conforming to the spec §4.1 grammar: as `wfFieldsB`, but with
alphanumeric (`alnum`) identifiers. -/
def conformingFieldsB (f : PlotFields) : Bool :=
  decide (f.disk < 1000) && decide (f.plot_k < 100) &&
    decide (f.year < 10000) && decide (f.month < 100) &&
    decide (f.day < 100) && decide (f.hour < 100) && decide (f.minute < 100) &&
    !f.plot_id.toList.isEmpty && f.plot_id.toList.all Char.isAlphanum &&
    !f.job_id.toList.isEmpty && f.job_id.toList.all Char.isAlphanum

/-! ## Externals modelled from the spec -/

/-- Modelled from the spec: `plot_util.get_plotsize` — `plot_util` is not
among the provided sources.  Per §4.5 "`expectedSize` is a fixed lookup by
size class, never measured"; it is modelled as a fixed, everywhere-positive
lookup table, here `2^k` bytes for size class `k`. -/
def get_plotsize (k : Nat) : ℚ := 2 ^ k

/-- Modelled from the spec: `datetime.timestamp(datetime(y, mo, d, h, mi))`
(Python standard library, not repository code) — per §3, `createdAt` is
"decoded from the filename's embedded date/time fields (minute resolution)".
Modelled as an injective minute-resolution encoding of the civil time; no
claim depends on the concrete value. -/
def mkPlotTimestamp (y mo d h mi : Nat) : ℚ :=
  (((((y * 13 + mo) * 32 + d) * 24 + h) * 60 + mi : Nat) : ℚ)

/-- Gregorian leap-year rule, as used by Python `datetime`. -/
def isLeapYear (y : Nat) : Bool :=
  (y % 4 = 0 && y % 100 ≠ 0) || y % 400 = 0

def daysInMonth (y mo : Nat) : Nat :=
  if mo = 2 then (if isLeapYear y then 29 else 28)
  else if mo = 4 || mo = 6 || mo = 9 || mo = 11 then 30
  else 31

/-- The argument ranges accepted by Python's `datetime(y, mo, d, h, mi)`
constructor; outside them it raises `ValueError`. -/
def datetimeValid (y mo d h mi : Nat) : Bool :=
  decide (1 ≤ y) && decide (y ≤ 9999) && decide (1 ≤ mo) && decide (mo ≤ 12) &&
    decide (1 ≤ d) && decide (d ≤ daysInMonth y mo) &&
    decide (h ≤ 23) && decide (mi ≤ 59)

/-! ## Ingress jobs: `IngressArchiveJob` -/

/-- `IngressArchiveJob` (`archive_job.py:86`).  `prev_transferred_bytes` is
the sample history of `(timestamp, transferred_bytes)` pairs;
`timestamp` is the observation time (`datetime.now()` at construction,
passed in as `now`). -/
structure IngressArchiveJob where
  job_id : String
  plot_id : String
  plot_k : Nat
  plot_timestamp : ℚ
  disk : Nat
  is_local : Bool
  transferred_bytes : Int
  prev_transferred_bytes : List (ℚ × Int)
  timestamp : ℚ
deriving DecidableEq, Repr

/-- The locality test at `archive_job.py:144`:
`any(plot_id in ' '.join(local_job.cmdline()) for local_job in local_jobs)`. -/
def classify (plot_id : String) (local_cmdlines : List (List String)) : Bool :=
  local_cmdlines.any (fun cmd => pyIn plot_id.toList (joinSpaces cmd))

/-- Processing of one `find -ls` output line (`archive_job.py:123-148`,
up to and including the `datetime(...)` call at line 145):
`.error ()` marks a raised exception (a non-integer size token, or regex
groups rejected by the `datetime` constructor), `.ok none` a silently
skipped line, `.ok (some (fields, bytes))` a parsed candidate. -/
def parseLine (path : String) (line : String) :
    Except Unit (Option (PlotFields × Int)) :=
  let split := pyWords (pyStrip line.toList)
  if split.length = 11 then
    let jobTok := pyStrip (split.getD 10 [])
    let spaceTok := split.getD 6 []
    match pyInt? spaceTok with
    | none => .error ()
    | some tb =>
      match parsePlotPath path.toList jobTok with
      | none => .ok none
      | some f =>
        if datetimeValid f.year f.month f.day f.hour f.minute then
          .ok (some (f, tb))
        else .error ()
  else .ok none

/-- Record construction for one parsed candidate (`archive_job.py:144-158`):
the locality flag, the history carried over from the first previous record
with the same `job_id` (lines 146-148), and the branch fields. -/
def mkIngressJob (local_cmdlines : List (List String))
    (prev_jobs : List IngressArchiveJob) (now : ℚ)
    (c : PlotFields × Int) : IngressArchiveJob :=
  { job_id := c.1.job_id
    plot_id := c.1.plot_id
    plot_k := c.1.plot_k
    plot_timestamp := mkPlotTimestamp c.1.year c.1.month c.1.day c.1.hour c.1.minute
    disk := c.1.disk
    is_local := classify c.1.plot_id local_cmdlines
    transferred_bytes := c.2
    prev_transferred_bytes :=
      match prev_jobs.find? (fun j => j.job_id == c.1.job_id) with
      | some p => (p.timestamp, p.transferred_bytes) :: p.prev_transferred_bytes
      | none => []
    timestamp := now }

/-- `IngressArchiveJob.get_archive_running_jobs` (`archive_job.py:97-160`),
as a function of the probe output.  `path` is the normalized destination
root, `lines` the stdout of the `find` call, `local_cmdlines` the command
lines of the concurrently running egress processes, `now` the wall clock.
`none` models the loop aborting with an exception; records appear in line
order, as built by `jobs.append(job)`. -/
def IngressArchiveJob.get_archive_running_jobs (path : String)
    (local_cmdlines : List (List String)) (now : ℚ)
    (prev_jobs : List IngressArchiveJob) :
    List String → Option (List IngressArchiveJob)
  | [] => some []
  | line :: rest =>
    match parseLine path line with
    | .error _ => none
    | .ok none =>
      IngressArchiveJob.get_archive_running_jobs path local_cmdlines now prev_jobs rest
    | .ok (some c) =>
      (IngressArchiveJob.get_archive_running_jobs path local_cmdlines now prev_jobs rest).map
        (fun js => mkIngressJob local_cmdlines prev_jobs now c :: js)

/-- The candidates successfully parsed from this cycle's probe output. -/
def cycleCandidates (path : String) (lines : List String) : List (PlotFields × Int) :=
  lines.filterMap (fun l =>
    match parseLine path l with
    | .ok (some c) => some c
    | _ => none)

/-- The `jobId`s of this cycle's parsed candidates. -/
def cycleJobIds (path : String) (lines : List String) : List String :=
  (cycleCandidates path lines).map (fun c => c.1.job_id)

/-! ## Rate, ETA and progress estimators -/

/-- Comparison by timestamp, the key of
`sorted(self.prev_transferred_bytes, key=lambda tuple: tuple[0])`. -/
def sampleLE (a b : ℚ × Int) : Prop := a.1 ≤ b.1

instance : DecidableRel sampleLE :=
  fun a b => inferInstanceAs (Decidable (a.1 ≤ b.1))

instance : IsTotal (ℚ × Int) sampleLE := ⟨fun a b => le_total a.1 b.1⟩

instance : IsTrans (ℚ × Int) sampleLE := ⟨fun _ _ _ h1 h2 => le_trans h1 h2⟩

/-- Python `sorted(..., key=lambda tuple: tuple[0])`: a stable ascending
sort by timestamp.  Stable insertion sort is extensionally equal to the
stable sort Python uses. -/
def pySortSamples (l : List (ℚ × Int)) : List (ℚ × Int) :=
  l.insertionSort sampleLE

/-- `IngressArchiveJob.estimated_transfer_rate` (`archive_job.py:193-202`).
The `[]` branch of the match is unreachable: the sort of a list that passed
the `len == 0` guard is nonempty; it stands for the `prevs[0]` indexing. -/
def IngressArchiveJob.estimated_transfer_rate (r : IngressArchiveJob) : Option ℚ :=
  if r.prev_transferred_bytes.length = 0 then none
  else
    match pySortSamples r.prev_transferred_bytes with
    | [] => none
    | prev :: _ =>
      let seconds := r.timestamp - prev.1
      if seconds = 0 then none
      else some (((r.transferred_bytes : ℚ) - (prev.2 : ℚ)) / seconds)

/-- Python `int(float)`: truncation toward zero. -/
def pyTruncInt (q : ℚ) : Int := if 0 ≤ q then ⌊q⌋ else ⌈q⌉

/-- `IngressArchiveJob.estimated_remaining_time` (`archive_job.py:186-191`). -/
def IngressArchiveJob.estimated_remaining_time (r : IngressArchiveJob) : Option Int :=
  match r.estimated_transfer_rate with
  | none => none
  | some rate =>
    if rate = 0 then none
    else
      let left : ℚ := get_plotsize r.plot_k - (r.transferred_bytes : ℚ)
      some (max (pyTruncInt (left / rate)) 0)

/-- `IngressArchiveJob.progress` (`archive_job.py:183-184`). -/
def IngressArchiveJob.progress (r : IngressArchiveJob) : ℚ :=
  min ((r.transferred_bytes : ℚ) / get_plotsize r.plot_k) 1

/-! ## Egress jobs: `EgressArchiveJob`

The two egress regexes (`archive_job.py:31` and `:37`) contain greedy
groups followed by rigid fixed-width / literal tails anchored at `$`, so
each admits at most one decomposition; they are embedded as deterministic
right-to-left parsers on the reversed character list. -/

/-- `EgressArchiveJob` (`archive_job.py:10`). -/
structure EgressArchiveJob where
  plot_id : String
  plot_k : Nat
  plot_timestamp : ℚ
  source_disk : String
  dest_disk : String
  start_timestamp : ℚ
  bw_limit : Int
  timestamp : ℚ
deriving DecidableEq, Repr

/-- The literal `rsync://`. -/
def litRsyncScheme : List Char := ['r', 's', 'y', 'n', 'c', ':', '/', '/']

/-- The destination rewrite regex
`^rsync://\S+@([\w\d]+):\d+/[\w\d]+/(\d+)/$` (`archive_job.py:31`),
parsed from the right of the reversed string: every group right of the
user part is a maximal digit/word run with a forced non-word separator, and
none of them may contain `@`, so the greedy `\S+@` necessarily stops at the
last `@`.  Returns `(host, diskIndex digits)`. -/
def parseRsyncUrl (cs : List Char) : Option (List Char × List Char) :=
  let r := cs.reverse
  match expectChar '/' r with
  | none => none
  | some r =>
  match r.span Char.isDigit with
  | (dks, r) =>
  if dks.isEmpty then none else
  match expectChar '/' r with
  | none => none
  | some r =>
  match r.span isWordChar with
  | (md, r) =>
  if md.isEmpty then none else
  match expectChar '/' r with
  | none => none
  | some r =>
  match r.span Char.isDigit with
  | (pt, r) =>
  if pt.isEmpty then none else
  match expectChar ':' r with
  | none => none
  | some r =>
  match r.span isWordChar with
  | (hs, r) =>
  if hs.isEmpty then none else
  match expectChar '@' r with
  | none => none
  | some r =>
  match expectStr litRsyncScheme r.reverse with
  | none => none
  | some user =>
  if user.isEmpty || user.any Char.isWhitespace then none
  else some (hs.reverse, dks.reverse)

/-- The destination rewrite at `archive_job.py:31-34`: a matching rsync URL
becomes the canonical locality tag `/<diskIndex>@<host>`, anything else is
kept as is. -/
def rewriteDest (dest : String) : String :=
  match parseRsyncUrl dest.toList with
  | some (host, disk) => "/" ++ disk.asString ++ "@" ++ host.asString
  | none => dest

/-- The literal `plot-k` (with the preceding `/` handled separately). -/
def litPlotK : List Char := ['p', 'l', 'o', 't', '-', 'k']

/-- The literal `.plot` suffix. -/
def litDotPlot : List Char := ['.', 'p', 'l', 'o', 't']

/-- Read exactly `w` digits from a reversed stream (digits appear least
significant first); value taken in original order. -/
def readRevFixedNat (w : Nat) (cs : List Char) : Option (Nat × List Char) :=
  let pre := cs.take w
  if pre.length = w && pre.all Char.isDigit then
    some (digitsToNat pre.reverse, cs.drop w)
  else none

/-- The egress source-path regex
`^([/\w\d]+)/plot-k(\d{2})-(\d{4})-(\d{2})-(\d{2})-(\d{2})-(\d{2})-([\w\d]+)\.plot$`
(`archive_job.py:37`), parsed from the right: the date/k fields are fixed
width, `plotId` is a maximal word run forced by the `-` and `.` delimiters,
so the greedy `([/\w\d]+)` group necessarily ends at the last viable
`/plot-k`.  Returns `(source_disk, k, year, month, day, hour, minute,
plot_id)`. -/
def parseEgressPlotPath (cs : List Char) :
    Option (List Char × Nat × Nat × Nat × Nat × Nat × Nat × List Char) :=
  let r := cs.reverse
  match expectStr litDotPlot.reverse r with
  | none => none
  | some r =>
  match r.span isWordChar with
  | (pidR, r) =>
  if pidR.isEmpty then none else
  match expectChar '-' r with
  | none => none
  | some r =>
  match readRevFixedNat 2 r with
  | none => none
  | some (minute, r) =>
  match expectChar '-' r with
  | none => none
  | some r =>
  match readRevFixedNat 2 r with
  | none => none
  | some (hour, r) =>
  match expectChar '-' r with
  | none => none
  | some r =>
  match readRevFixedNat 2 r with
  | none => none
  | some (day, r) =>
  match expectChar '-' r with
  | none => none
  | some r =>
  match readRevFixedNat 2 r with
  | none => none
  | some (month, r) =>
  match expectChar '-' r with
  | none => none
  | some r =>
  match readRevFixedNat 4 r with
  | none => none
  | some (year, r) =>
  match expectChar '-' r with
  | none => none
  | some r =>
  match readRevFixedNat 2 r with
  | none => none
  | some (k, r) =>
  match expectStr litPlotK.reverse r with
  | none => none
  | some r =>
  match expectChar '/' r with
  | none => none
  | some srcR =>
  if srcR.isEmpty || !srcR.all (fun c => isWordChar c || c = '/') then none
  else some (srcR.reverse, k, year, month, day, hour, minute, pidR.reverse)

/-- `int(split[1].split('=')[1])` (`archive_job.py:36`): `none` models the
`IndexError` (no `=` in the token) or `ValueError` (non-integer) raised
there. -/
def parseBwLimit (tok : String) : Option Int :=
  match splitOnChar '=' tok.toList with
  | _ :: second :: _ => pyInt? second
  | _ => none

/-- Processing of one egress process candidate (`archive_job.py:24-58`):
`cmdline` the process's argument list, `create_time` its start time, `now`
the wall clock.  `.error ()` marks a raised exception (malformed bandwidth
token, or regex groups rejected by `datetime`), `.ok none` a silently
skipped candidate. -/
def parseEgressProc (cmdline : List String) (create_time now : ℚ) :
    Except Unit (Option EgressArchiveJob) :=
  if cmdline.length = 9 then
    let plot_path := cmdline.getD 7 ""
    let dest := rewriteDest (cmdline.getD 8 "")
    match parseBwLimit (cmdline.getD 1 "") with
    | none => .error ()
    | some bw =>
      match parseEgressPlotPath plot_path.toList with
      | none => .ok none
      | some (src, k, y, mo, d, h, mi, pid) =>
        if datetimeValid y mo d h mi then
          .ok (some
            { plot_id := pid.asString
              plot_k := k
              plot_timestamp := mkPlotTimestamp y mo d h mi
              source_disk := src.asString
              dest_disk := dest
              start_timestamp := create_time
              bw_limit := bw
              timestamp := now })
        else .error ()
  else .ok none

/-- `EgressArchiveJob.get_archive_running_jobs` (`archive_job.py:20-59`) as
a function of the probe output: one `(cmdline, create_time)` pair per
process.  `none` models the loop aborting with an exception. -/
def EgressArchiveJob.get_archive_running_jobs (now : ℚ) :
    List (List String × ℚ) → Option (List EgressArchiveJob)
  | [] => some []
  | (cmd, t) :: rest =>
    match parseEgressProc cmd t now with
    | .error _ => none
    | .ok none => EgressArchiveJob.get_archive_running_jobs now rest
    | .ok (some j) =>
      (EgressArchiveJob.get_archive_running_jobs now rest).map (fun js => j :: js)

/-- `EgressArchiveJob.progress` (`archive_job.py:80-83`); the Python float
literal `0.8` is modelled as the rational `4/5`. -/
def EgressArchiveJob.progress (now : ℚ) (j : EgressArchiveJob) : ℚ :=
  min (((now - j.start_timestamp) * (j.bw_limit : ℚ) * 1000) * (4 / 5) /
    get_plotsize j.plot_k) 1

/-- The egress progress formula exactly as claim C7 words it (spec §4.5):
`clamp((elapsedSinceStart * bandwidthLimit * 0.8) / expectedSize, 0, 1)`
with `bandwidthLimit` the raw integer parsed from the rate-limit token —
written from the spec, to be compared against the code's
`EgressArchiveJob.progress`. -/
def egressProgressClaimFormula (now : ℚ) (j : EgressArchiveJob) : ℚ :=
  min (max (((now - j.start_timestamp) * (j.bw_limit : ℚ) * (4 / 5)) /
    get_plotsize j.plot_k) 0) 1

/-! ## Lemmas about the sample sort -/

lemma pySortSamples_perm (l : List (ℚ × Int)) : (pySortSamples l).Perm l :=
  List.perm_insertionSort sampleLE l

lemma pySortSamples_eq_nil {l : List (ℚ × Int)} (h : pySortSamples l = []) :
    l = [] :=
  ((h ▸ pySortSamples_perm l).symm).eq_nil

lemma pySortSamples_head_min {l : List (ℚ × Int)} {p : ℚ × Int}
    {rest : List (ℚ × Int)} (h : pySortSamples l = p :: rest) :
    p ∈ l ∧ ∀ q ∈ l, p.1 ≤ q.1 := by
  have hs : (pySortSamples l).Sorted sampleLE := List.sorted_insertionSort sampleLE l
  have hperm := pySortSamples_perm l
  constructor
  · exact hperm.mem_iff.mp (h ▸ List.mem_cons_self p rest)
  · intro q hq
    have hq' : q ∈ p :: rest := h ▸ hperm.mem_iff.mpr hq
    rcases List.mem_cons.mp hq' with rfl | hq''
    · exact le_refl _
    · exact List.rel_of_sorted_cons (h ▸ hs) q hq''

/-! ## Claim C3: the rate estimator -/

/-- C3.  `estimated_transfer_rate` is undefined exactly when the sample
history is empty or the elapsed time from a minimal-timestamp (oldest)
sample to the record's observation time is zero; otherwise it is the byte
delta to an oldest sample divided by that elapsed time; and a zero byte
delta with nonzero elapsed time yields `some 0`, not `none`. -/
theorem ingress_rate_oldest_baseline (r : IngressArchiveJob) :
    (r.estimated_transfer_rate = none ↔
      r.prev_transferred_bytes = [] ∨
        ∃ p ∈ r.prev_transferred_bytes,
          (∀ q ∈ r.prev_transferred_bytes, p.1 ≤ q.1) ∧ r.timestamp - p.1 = 0) ∧
    (∀ v, r.estimated_transfer_rate = some v →
      ∃ p ∈ r.prev_transferred_bytes,
        (∀ q ∈ r.prev_transferred_bytes, p.1 ≤ q.1) ∧
          v = ((r.transferred_bytes : ℚ) - (p.2 : ℚ)) / (r.timestamp - p.1)) ∧
    (r.prev_transferred_bytes ≠ [] →
      (∀ p ∈ r.prev_transferred_bytes, p.2 = r.transferred_bytes) →
      (∀ p ∈ r.prev_transferred_bytes, r.timestamp - p.1 ≠ 0) →
      r.estimated_transfer_rate = some 0) := by
  by_cases hl : r.prev_transferred_bytes = []
  · have hrate : r.estimated_transfer_rate = none := by
      simp [IngressArchiveJob.estimated_transfer_rate, hl]
    refine ⟨⟨fun _ => Or.inl hl, fun _ => hrate⟩, ?_, ?_⟩
    · intro v hv
      rw [hrate] at hv
      exact absurd hv (by simp)
    · intro hne
      exact absurd hl hne
  · have hsne : pySortSamples r.prev_transferred_bytes ≠ [] :=
      fun h => hl (pySortSamples_eq_nil h)
    obtain ⟨p, rest, hs⟩ := List.exists_cons_of_ne_nil hsne
    obtain ⟨hpmem, hpmin⟩ := pySortSamples_head_min hs
    have hlen : ¬ r.prev_transferred_bytes.length = 0 := by
      simpa [List.length_eq_zero] using hl
    by_cases hz : r.timestamp - p.1 = 0
    · have hrate : r.estimated_transfer_rate = none := by
        simp [IngressArchiveJob.estimated_transfer_rate, hlen, hs, hz]
      refine ⟨⟨fun _ => Or.inr ⟨p, hpmem, hpmin, hz⟩, fun _ => hrate⟩, ?_, ?_⟩
      · intro v hv
        rw [hrate] at hv
        exact absurd hv (by simp)
      · intro _ _ hzs
        exact absurd hz (hzs p hpmem)
    · have hrate : r.estimated_transfer_rate =
          some (((r.transferred_bytes : ℚ) - (p.2 : ℚ)) / (r.timestamp - p.1)) := by
        simp [IngressArchiveJob.estimated_transfer_rate, hlen, hs, hz]
      refine ⟨⟨fun h => ?_, fun h => ?_⟩, ?_, ?_⟩
      · rw [hrate] at h
        exact absurd h (by simp)
      · rcases h with h | ⟨q, hq, hqmin, hq0⟩
        · exact absurd h hl
        · have h1 : p.1 ≤ q.1 := hpmin q hq
          have h2 : q.1 ≤ p.1 := hqmin p hpmem
          have : p.1 = q.1 := le_antisymm h1 h2
          exact absurd (this ▸ hz) (fun c => c hq0)
      · intro v hv
        rw [hrate] at hv
        exact ⟨p, hpmem, hpmin, (Option.some_inj.mp hv).symm⟩
      · intro _ hdelta _
        rw [hrate, hdelta p hpmem]
        simp

/-! ## Claim C4: the ETA estimator -/

/-- Truncation toward zero followed by `max 0` agrees with flooring the
clamped ratio, for any rational. -/
lemma max_pyTruncInt_zero (x : ℚ) : max (pyTruncInt x) 0 = ⌊max 0 x⌋ := by
  rcases le_or_lt 0 x with h | h
  · rw [pyTruncInt, if_pos h, max_eq_right h, max_eq_left (Int.floor_nonneg.mpr h)]
  · rw [pyTruncInt, if_neg (not_le.mpr h), max_eq_left h.le]
    have hceil : ⌈x⌉ ≤ 0 := Int.ceil_le.mpr (by exact_mod_cast h.le)
    rw [max_eq_right hceil]
    simp

/-- C4.  `estimated_remaining_time` is undefined exactly when the transfer
rate is undefined or zero; otherwise it is
`max(0, (expectedSize(k) - transferredBytes) / rate)` floored to an
integer.  The zero-rate guard means no division by zero is ever performed
(the function is total). -/
theorem ingress_eta_spec (r : IngressArchiveJob) :
    (r.estimated_remaining_time = none ↔
      r.estimated_transfer_rate = none ∨ r.estimated_transfer_rate = some 0) ∧
    (∀ ρ, r.estimated_transfer_rate = some ρ → ρ ≠ 0 →
      r.estimated_remaining_time =
        some ⌊max 0 ((get_plotsize r.plot_k - (r.transferred_bytes : ℚ)) / ρ)⌋) := by
  constructor
  · cases hρ : r.estimated_transfer_rate with
    | none => simp [IngressArchiveJob.estimated_remaining_time, hρ]
    | some ρ =>
      by_cases h0 : ρ = 0
      · subst h0
        simp [IngressArchiveJob.estimated_remaining_time, hρ]
      · simp [IngressArchiveJob.estimated_remaining_time, hρ, h0]
  · intro ρ hρ h0
    rw [IngressArchiveJob.estimated_remaining_time, hρ]
    simp only [h0, if_false]
    rw [max_pyTruncInt_zero]

/-! ## Claim C5: ingress progress is clamped -/

lemma get_plotsize_pos (k : Nat) : 0 < get_plotsize k := by
  rw [get_plotsize]
  positivity

/-- C5.  For a record with nonnegative observed bytes, `progress` equals
`clamp(transferredBytes / expectedSize(k), 0, 1)`, lies in `[0, 1]`, and is
exactly `1` as soon as the observed bytes exceed the expected size. -/
theorem ingress_progress_clamped (r : IngressArchiveJob)
    (h : 0 ≤ r.transferred_bytes) :
    r.progress = min (max ((r.transferred_bytes : ℚ) / get_plotsize r.plot_k) 0) 1 ∧
    0 ≤ r.progress ∧ r.progress ≤ 1 ∧
    (get_plotsize r.plot_k < (r.transferred_bytes : ℚ) → r.progress = 1) := by
  have hpos := get_plotsize_pos r.plot_k
  have hx : (0 : ℚ) ≤ (r.transferred_bytes : ℚ) / get_plotsize r.plot_k :=
    div_nonneg (by exact_mod_cast h) hpos.le
  refine ⟨?_, ?_, ?_, ?_⟩
  · rw [IngressArchiveJob.progress, max_eq_left hx]
  · exact le_min hx zero_le_one
  · exact min_le_right _ _
  · intro hgt
    have h1 : 1 < (r.transferred_bytes : ℚ) / get_plotsize r.plot_k :=
      (one_lt_div hpos).mpr hgt
    exact min_eq_right h1.le

/-! ## Claim C10: permutation invariance of the rate -/

/-- C10 (amended).  `estimated_transfer_rate` is invariant under
permutations of the sample history provided samples sharing a timestamp
carry equal byte counts (in particular whenever the minimal timestamp is
attained only once): the result then depends only on `transferredBytes`,
`timestamp`, and the value of a minimal-timestamp sample. -/
theorem ingress_rate_perm_invariant (r1 r2 : IngressArchiveJob)
    (hperm : r1.prev_transferred_bytes.Perm r2.prev_transferred_bytes)
    (htb : r1.transferred_bytes = r2.transferred_bytes)
    (hts : r1.timestamp = r2.timestamp)
    (hkey : ∀ p ∈ r1.prev_transferred_bytes, ∀ q ∈ r1.prev_transferred_bytes,
      p.1 = q.1 → p.2 = q.2) :
    r1.estimated_transfer_rate = r2.estimated_transfer_rate := by
  by_cases hl : r1.prev_transferred_bytes = []
  · have hl2 : r2.prev_transferred_bytes = [] := (hl ▸ hperm).symm.eq_nil.symm ▸ rfl
    simp [IngressArchiveJob.estimated_transfer_rate, hl, hl2]
  · have hl2 : r2.prev_transferred_bytes ≠ [] := by
      intro h
      exact hl (hperm.trans (h ▸ List.Perm.refl _)).eq_nil
    have hs1ne : pySortSamples r1.prev_transferred_bytes ≠ [] :=
      fun h => hl (pySortSamples_eq_nil h)
    have hs2ne : pySortSamples r2.prev_transferred_bytes ≠ [] :=
      fun h => hl2 (pySortSamples_eq_nil h)
    obtain ⟨p1, t1, hs1⟩ := List.exists_cons_of_ne_nil hs1ne
    obtain ⟨p2, t2, hs2⟩ := List.exists_cons_of_ne_nil hs2ne
    obtain ⟨hm1, hmin1⟩ := pySortSamples_head_min hs1
    obtain ⟨hm2, hmin2⟩ := pySortSamples_head_min hs2
    have hm2' : p2 ∈ r1.prev_transferred_bytes := hperm.mem_iff.mpr hm2
    have hm1' : p1 ∈ r2.prev_transferred_bytes := hperm.mem_iff.mp hm1
    have hfst : p1.1 = p2.1 := le_antisymm (hmin1 p2 hm2') (hmin2 p1 hm1')
    have hsnd : p1.2 = p2.2 := hkey p1 hm1 p2 hm2' hfst
    have hlen1 : ¬ r1.prev_transferred_bytes.length = 0 := by
      simpa [List.length_eq_zero] using hl
    have hlen2 : ¬ r2.prev_transferred_bytes.length = 0 := by
      simpa [List.length_eq_zero] using hl2
    rw [IngressArchiveJob.estimated_transfer_rate,
      IngressArchiveJob.estimated_transfer_rate]
    simp only [hlen1, hlen2, if_false, hs1, hs2]
    rw [hfst, hsnd, htb, hts]

/-! ## Claim C8: the locality classifier -/

lemma listStartsWith_iff : ∀ (n h : List Char),
    listStartsWith n h = true ↔ n <+: h
  | [], h => by simp [listStartsWith]
  | a :: as, [] => by simp [listStartsWith]
  | a :: as, b :: bs => by
    rw [listStartsWith, List.cons_prefix_cons, Bool.and_eq_true, decide_eq_true_iff,
      listStartsWith_iff as bs]
    exact and_congr_left (fun _ => eq_comm)

lemma pyIn_iff (n : List Char) : ∀ h : List Char, pyIn n h = true ↔ n <:+: h
  | [] => by
    rw [pyIn, List.isEmpty_iff]
    constructor
    · rintro rfl
      exact List.infix_rfl
    · rintro ⟨s, t, hst⟩
      have := List.append_eq_nil.mp hst
      simpa using (List.append_eq_nil.mp this.1).2
  | c :: cs => by
    rw [pyIn, Bool.or_eq_true, listStartsWith_iff, pyIn_iff n cs,
      List.infix_cons_iff]

/-- C8.  The locality classifier is true exactly when the ingress record's
`plotId` occurs as a contiguous substring of some egress candidate's
space-joined command-line text — plain substring containment, nothing
else. -/
theorem locality_classify_iff (plot_id : String) (cmds : List (List String)) :
    classify plot_id cmds = true ↔
      ∃ cmd ∈ cmds, plot_id.toList <:+: joinSpaces cmd := by
  rw [classify, List.any_eq_true]
  constructor
  · rintro ⟨cmd, hc, hin⟩
    exact ⟨cmd, hc, (pyIn_iff plot_id.toList (joinSpaces cmd)).mp hin⟩
  · rintro ⟨cmd, hc, hin⟩
    exact ⟨cmd, hc, (pyIn_iff plot_id.toList (joinSpaces cmd)).mpr hin⟩

/-! ## Claims C1 and C6: registry reconciliation -/

/-- A successful ingress cycle returns exactly the records built from this
cycle's parsed candidates, in probe order. -/
lemma ingress_jobs_eq_map (path : String) (local_cmdlines : List (List String))
    (now : ℚ) (prev : List IngressArchiveJob) :
    ∀ (lines : List String) (jobs : List IngressArchiveJob),
      IngressArchiveJob.get_archive_running_jobs path local_cmdlines now prev lines =
        some jobs →
      jobs = (cycleCandidates path lines).map (mkIngressJob local_cmdlines prev now)
  | [], jobs, h => by
    simp only [IngressArchiveJob.get_archive_running_jobs, Option.some_inj] at h
    simp [cycleCandidates, ← h]
  | line :: rest, jobs, h => by
    rw [IngressArchiveJob.get_archive_running_jobs] at h
    cases hpl : parseLine path line with
    | error e =>
      rw [hpl] at h
      exact absurd h (by simp)
    | ok o =>
      cases o with
      | none =>
        rw [hpl] at h
        have ih := ingress_jobs_eq_map path local_cmdlines now prev rest jobs h
        rw [ih]
        simp [cycleCandidates, List.filterMap_cons, hpl]
      | some c =>
        rw [hpl] at h
        rw [Option.map_eq_some'] at h
        obtain ⟨js, hjs, rfl⟩ := h
        have ih := ingress_jobs_eq_map path local_cmdlines now prev rest js hjs
        rw [ih]
        simp [cycleCandidates, List.filterMap_cons, hpl]

/-- C1.  A successful `IngressArchiveJob.get_archive_running_jobs` cycle
returns exactly the records built from this cycle's parsed candidates;
every returned record's `jobId` was parsed this cycle, and any previous
record whose `jobId` was not parsed this cycle has no record in the result
— eviction purely by absence. -/
theorem ingress_reconcile_absence_eviction (path : String)
    (local_cmdlines : List (List String)) (now : ℚ)
    (prev : List IngressArchiveJob) (lines : List String)
    (jobs : List IngressArchiveJob)
    (h : IngressArchiveJob.get_archive_running_jobs path local_cmdlines now prev lines =
      some jobs) :
    jobs = (cycleCandidates path lines).map (mkIngressJob local_cmdlines prev now) ∧
    (∀ j ∈ jobs, j.job_id ∈ cycleJobIds path lines) ∧
    (∀ p ∈ prev, p.job_id ∉ cycleJobIds path lines →
      ∀ j ∈ jobs, j.job_id ≠ p.job_id) := by
  have hmap := ingress_jobs_eq_map path local_cmdlines now prev lines jobs h
  have hmem : ∀ j ∈ jobs, j.job_id ∈ cycleJobIds path lines := by
    intro j hj
    rw [hmap] at hj
    obtain ⟨c, hc, rfl⟩ := List.mem_map.mp hj
    exact List.mem_map.mpr ⟨c, hc, rfl⟩
  refine ⟨hmap, hmem, ?_⟩
  intro p _ hpnot j hj heq
  exact hpnot (heq ▸ hmem j hj)

/-- The non-increasing-by-timestamp ordering of an observation chain:
the record's own observation followed by its sample history. -/
def sampleDesc (l : List (ℚ × Int)) : Prop :=
  l.Chain' (fun a b => b.1 ≤ a.1)

def obsChainDesc (j : IngressArchiveJob) : Prop :=
  sampleDesc ((j.timestamp, j.transferred_bytes) :: j.prev_transferred_bytes)

instance (l : List (ℚ × Int)) : Decidable (sampleDesc l) :=
  inferInstanceAs (Decidable (l.Chain' (fun a b : ℚ × Int => b.1 ≤ a.1)))

instance (j : IngressArchiveJob) : Decidable (obsChainDesc j) :=
  inferInstanceAs (Decidable
    (sampleDesc ((j.timestamp, j.transferred_bytes) :: j.prev_transferred_bytes)))

/-- C6 (amended).  In a successful cycle, a record whose `jobId` matches a
previous record (the first such, per `next(...)`) carries that record's
history with the previous observation `(previous.timestamp,
previous.transferred_bytes)` prepended; an unmatched record starts with an
empty history.  Provided every previous record's observation chain is
non-increasing by timestamp and observed no later than `now`, the new
history is ordered **descending** (non-increasing) by timestamp — the
newest sample first, not ascending — and prepending preserves that
order. -/
theorem ingress_history_prepend_desc (path : String)
    (local_cmdlines : List (List String)) (now : ℚ)
    (prev : List IngressArchiveJob) (lines : List String)
    (jobs : List IngressArchiveJob)
    (h : IngressArchiveJob.get_archive_running_jobs path local_cmdlines now prev lines =
      some jobs)
    (hinv : ∀ p ∈ prev, obsChainDesc p ∧ p.timestamp ≤ now) :
    ∀ j ∈ jobs,
      (∀ p, prev.find? (fun q => q.job_id == j.job_id) = some p →
        j.prev_transferred_bytes =
          (p.timestamp, p.transferred_bytes) :: p.prev_transferred_bytes) ∧
      (prev.find? (fun q => q.job_id == j.job_id) = none →
        j.prev_transferred_bytes = []) ∧
      sampleDesc j.prev_transferred_bytes ∧ obsChainDesc j := by
  have hmap := ingress_jobs_eq_map path local_cmdlines now prev lines jobs h
  intro j hj
  rw [hmap] at hj
  obtain ⟨c, _, rfl⟩ := List.mem_map.mp hj
  cases hf : prev.find? (fun q => q.job_id == (mkIngressJob local_cmdlines prev now c).job_id) with
  | some p =>
    have hp : p ∈ prev := List.mem_of_find?_eq_some hf
    obtain ⟨hdesc, hle⟩ := hinv p hp
    have hh : (mkIngressJob local_cmdlines prev now c).prev_transferred_bytes =
        (p.timestamp, p.transferred_bytes) :: p.prev_transferred_bytes := by
      simp only [mkIngressJob] at hf ⊢
      rw [hf]
    refine ⟨fun p' hp' => ?_, fun hn => ?_, ?_, ?_⟩
    · cases hp'
      exact hh
    · cases hn
    · rw [hh]
      exact hdesc
    · rw [obsChainDesc, hh, sampleDesc, List.chain'_cons]
      exact ⟨hle, hdesc⟩
  | none =>
    have hh : (mkIngressJob local_cmdlines prev now c).prev_transferred_bytes = [] := by
      simp only [mkIngressJob] at hf ⊢
      rw [hf]
    refine ⟨fun p' hp' => ?_, fun _ => hh, ?_, ?_⟩
    · cases hp'
    · rw [hh]
      exact List.chain'_nil
    · rw [obsChainDesc, hh]
      exact List.chain'_singleton _

/-! ## Claim C7: egress progress projection -/

/-- C7 (amended).  Egress `progress()` equals
`clamp((elapsedSinceStart * bandwidthLimit * 1000 * 0.8) / expectedSize(k), 0, 1)`
— the code multiplies the raw integer parsed from the rate-limit token by
1000, treating it as units of 1000 bytes/sec, not bytes/sec — for any
observation time not before the start and a nonnegative limit; the result
then lies in `[0, 1]`. -/
theorem egress_progress_formula (now : ℚ) (j : EgressArchiveJob)
    (h1 : j.start_timestamp ≤ now) (h2 : 0 ≤ j.bw_limit) :
    j.progress now =
      min (max (((now - j.start_timestamp) * (j.bw_limit : ℚ) * 1000) * (4 / 5) /
        get_plotsize j.plot_k) 0) 1 ∧
    0 ≤ j.progress now ∧ j.progress now ≤ 1 := by
  have ha : (0 : ℚ) ≤ now - j.start_timestamp := sub_nonneg.mpr h1
  have hb : (0 : ℚ) ≤ (j.bw_limit : ℚ) := by exact_mod_cast h2
  have harg : (0 : ℚ) ≤ ((now - j.start_timestamp) * (j.bw_limit : ℚ) * 1000) * (4 / 5) /
      get_plotsize j.plot_k :=
    div_nonneg
      (mul_nonneg (mul_nonneg (mul_nonneg ha hb) (by norm_num)) (by norm_num))
      (get_plotsize_pos j.plot_k).le
  refine ⟨?_, ?_, ?_⟩
  · rw [EgressArchiveJob.progress, max_eq_left harg]
  · exact le_min harg zero_le_one
  · exact min_le_right _ _

/-! ## Claim C9: egress candidate handling -/

/-- C9 (amended).  An egress candidate whose command line does not have
exactly 9 tokens is skipped silently; a 9-token candidate whose source-path
token does not match the plot-path grammar is skipped silently (given its
rate-limit token parsed); but a 9-token candidate with a malformed
rate-limit token **raises** (`int(split[1].split('=')[1])`,
`archive_job.py:36`) rather than being skipped. -/
theorem egress_candidate_skip_spec (cmd : List String) (t now : ℚ) :
    (cmd.length ≠ 9 → parseEgressProc cmd t now = .ok none) ∧
    (cmd.length = 9 → parseBwLimit (cmd.getD 1 "") = none →
      parseEgressProc cmd t now = .error ()) ∧
    (cmd.length = 9 → ∀ bw, parseBwLimit (cmd.getD 1 "") = some bw →
      parseEgressPlotPath (cmd.getD 7 "").toList = none →
      parseEgressProc cmd t now = .ok none) := by
  refine ⟨fun h => ?_, fun h9 hbw => ?_, fun h9 bw hbw hpath => ?_⟩
  · rw [parseEgressProc, if_neg h]
  · rw [parseEgressProc, if_pos h9, hbw]
  · rw [parseEgressProc, if_pos h9, hbw]
    simp only []
    rw [hpath]

/-! ## Concrete cycles, witnesses and counterexamples -/

/-- Normalized destination root used by the concrete cycles. -/
def cexRoot : String := "/r/"

/-- One `find -ls` output line with 11 tokens: size 777 bytes and a
conforming marker path. -/
def cexLineA : String :=
  "1 2 3 4 5 6 777 8 9 10 /r/003/.plot-k32-2021-01-02-03-04-abc.plot.j1"

/-- A previous-cycle record whose `jobId` is not re-observed. -/
def cexPrevStale : IngressArchiveJob :=
  { job_id := "zz", plot_id := "q", plot_k := 32, plot_timestamp := 0, disk := 1,
    is_local := false, transferred_bytes := 1, prev_transferred_bytes := [],
    timestamp := 0 }

/-- The registry produced from `cexLineA` against `cexPrevStale` at time 5. -/
def cexCycleJobs : List IngressArchiveJob :=
  [{ job_id := "j1", plot_id := "abc", plot_k := 32,
     plot_timestamp := mkPlotTimestamp 2021 1 2 3 4, disk := 3,
     is_local := false, transferred_bytes := 777, prev_transferred_bytes := [],
     timestamp := 5 }]

theorem ingress_reconcile_absence_eviction_witness :
    cexCycleJobs =
      (cycleCandidates cexRoot [cexLineA]).map (mkIngressJob [] [cexPrevStale] 5) ∧
    (∀ j ∈ cexCycleJobs, j.job_id ∈ cycleJobIds cexRoot [cexLineA]) ∧
    (∀ p ∈ [cexPrevStale], p.job_id ∉ cycleJobIds cexRoot [cexLineA] →
      ∀ j ∈ cexCycleJobs, j.job_id ≠ p.job_id) :=
  ingress_reconcile_absence_eviction cexRoot [] 5 [cexPrevStale] [cexLineA]
    cexCycleJobs (by decide)

/-- A previous-cycle record with the re-observed `jobId` and a one-sample
history. -/
def cexPrevMatch : IngressArchiveJob :=
  { job_id := "j1", plot_id := "abc", plot_k := 32,
    plot_timestamp := mkPlotTimestamp 2021 1 2 3 4, disk := 3,
    is_local := false, transferred_bytes := 100,
    prev_transferred_bytes := [(1, 50)], timestamp := 3 }

/-- The record produced from `cexLineA` against `cexPrevMatch` at time 5:
the previous observation `(3, 100)` is prepended to the carried history. -/
def cexHistJob : IngressArchiveJob :=
  { job_id := "j1", plot_id := "abc", plot_k := 32,
    plot_timestamp := mkPlotTimestamp 2021 1 2 3 4, disk := 3,
    is_local := false, transferred_bytes := 777,
    prev_transferred_bytes := [(3, 100), (1, 50)], timestamp := 5 }

theorem ingress_history_prepend_desc_witness :
    cexHistJob.prev_transferred_bytes =
      (cexPrevMatch.timestamp, cexPrevMatch.transferred_bytes) ::
        cexPrevMatch.prev_transferred_bytes ∧
    sampleDesc cexHistJob.prev_transferred_bytes ∧ obsChainDesc cexHistJob :=
  let h := ingress_history_prepend_desc cexRoot [] 5 [cexPrevMatch] [cexLineA]
    [cexHistJob] (by decide)
    (by norm_num [cexPrevMatch, obsChainDesc, sampleDesc, List.chain'_cons])
    cexHistJob (by decide)
  ⟨h.1 cexPrevMatch (by decide), h.2.2.1, h.2.2.2⟩

/-- Cycle 1: first observation of `j1`, at time 0. -/
def c6run1 : Option (List IngressArchiveJob) :=
  IngressArchiveJob.get_archive_running_jobs cexRoot [] 0 [] [cexLineA]

/-- Cycle 2: `j1` re-observed at time 10, previous registry cycle 1. -/
def c6run2 : Option (List IngressArchiveJob) :=
  IngressArchiveJob.get_archive_running_jobs cexRoot [] 10 (c6run1.getD []) [cexLineA]

/-- Cycle 3: `j1` re-observed at time 20, previous registry cycle 2. -/
def c6run3 : Option (List IngressArchiveJob) :=
  IngressArchiveJob.get_archive_running_jobs cexRoot [] 20 (c6run2.getD []) [cexLineA]

/-- The record produced by cycle 3: its history holds the newest sample
first. -/
def c6job3 : IngressArchiveJob :=
  { job_id := "j1", plot_id := "abc", plot_k := 32,
    plot_timestamp := mkPlotTimestamp 2021 1 2 3 4, disk := 3,
    is_local := false, transferred_bytes := 777,
    prev_transferred_bytes := [(10, 777), (0, 777)], timestamp := 20 }

/-- C6 counterexample.  After three reconcile cycles over the same job, the
produced record's `sampleHistory` is `[(10, 777), (0, 777)]` — newest
first, which is **not** ordered ascending by timestamp as the claim
states. -/
theorem ingress_history_ascending_cex :
    c6run3 = some [c6job3] ∧
    ¬ List.Chain' (fun a b : ℚ × Int => a.1 ≤ b.1) c6job3.prev_transferred_bytes :=
  ⟨by decide, by norm_num [c6job3, List.chain'_cons]⟩

/-- Record used to instantiate the estimator theorems: history `[(0, 5)]`,
observed 25 bytes at time 10, so the rate is 2 bytes/sec. -/
def rateWitnessRec : IngressArchiveJob :=
  { job_id := "w", plot_id := "w", plot_k := 5, plot_timestamp := 0, disk := 0,
    is_local := false, transferred_bytes := 25,
    prev_transferred_bytes := [(0, 5)], timestamp := 10 }

theorem ingress_rate_oldest_baseline_witness :
    ∃ p ∈ rateWitnessRec.prev_transferred_bytes,
      (∀ q ∈ rateWitnessRec.prev_transferred_bytes, p.1 ≤ q.1) ∧
        (2 : ℚ) = ((rateWitnessRec.transferred_bytes : ℚ) - (p.2 : ℚ)) /
          (rateWitnessRec.timestamp - p.1) :=
  (ingress_rate_oldest_baseline rateWitnessRec).2.1 2 (by
    norm_num [IngressArchiveJob.estimated_transfer_rate, rateWitnessRec, pySortSamples,
      List.insertionSort, List.orderedInsert, sampleLE])

theorem ingress_eta_spec_witness :
    rateWitnessRec.estimated_remaining_time =
      some ⌊max 0 ((get_plotsize rateWitnessRec.plot_k -
        (rateWitnessRec.transferred_bytes : ℚ)) / 2)⌋ :=
  (ingress_eta_spec rateWitnessRec).2 2 (by
    norm_num [IngressArchiveJob.estimated_transfer_rate, rateWitnessRec, pySortSamples,
      List.insertionSort, List.orderedInsert, sampleLE]) (by norm_num)

theorem ingress_progress_clamped_witness :
    rateWitnessRec.progress =
      min (max ((rateWitnessRec.transferred_bytes : ℚ) /
        get_plotsize rateWitnessRec.plot_k) 0) 1 ∧
    0 ≤ rateWitnessRec.progress ∧ rateWitnessRec.progress ≤ 1 ∧
    (get_plotsize rateWitnessRec.plot_k < (rateWitnessRec.transferred_bytes : ℚ) →
      rateWitnessRec.progress = 1) :=
  ingress_progress_clamped rateWitnessRec (by decide)

/-- Two records whose histories are permutations of each other, with
pairwise distinct sample timestamps. -/
def permWitnessA : IngressArchiveJob :=
  { job_id := "w", plot_id := "w", plot_k := 5, plot_timestamp := 0, disk := 0,
    is_local := false, transferred_bytes := 20,
    prev_transferred_bytes := [(0, 5), (1, 9)], timestamp := 10 }

def permWitnessB : IngressArchiveJob :=
  { job_id := "w", plot_id := "w", plot_k := 5, plot_timestamp := 0, disk := 0,
    is_local := false, transferred_bytes := 20,
    prev_transferred_bytes := [(1, 9), (0, 5)], timestamp := 10 }

theorem ingress_rate_perm_invariant_witness :
    permWitnessA.estimated_transfer_rate = permWitnessB.estimated_transfer_rate :=
  ingress_rate_perm_invariant permWitnessA permWitnessB
    (List.Perm.swap (1, 9) (0, 5) []) rfl rfl (by decide)

/-- Two records whose histories are permutations of each other but share
the minimal timestamp `0` with different byte counts. -/
def permCexA : IngressArchiveJob :=
  { job_id := "w", plot_id := "w", plot_k := 5, plot_timestamp := 0, disk := 0,
    is_local := false, transferred_bytes := 20,
    prev_transferred_bytes := [(0, 5), (0, 7)], timestamp := 10 }

def permCexB : IngressArchiveJob :=
  { job_id := "w", plot_id := "w", plot_k := 5, plot_timestamp := 0, disk := 0,
    is_local := false, transferred_bytes := 20,
    prev_transferred_bytes := [(0, 7), (0, 5)], timestamp := 10 }

/-- C10 counterexample.  The two histories are permutations of one another
and all other fields agree, yet the stable sort keeps whichever
minimal-timestamp sample came first, so the computed rates differ
(`3/2` versus `13/10`): `estimated_transfer_rate` is **not** invariant
under permutations of the sample history. -/
theorem ingress_rate_perm_cex :
    permCexA.prev_transferred_bytes.Perm permCexB.prev_transferred_bytes ∧
    permCexA.transferred_bytes = permCexB.transferred_bytes ∧
    permCexA.timestamp = permCexB.timestamp ∧
    permCexA.estimated_transfer_rate ≠ permCexB.estimated_transfer_rate :=
  ⟨List.Perm.swap (0, 7) (0, 5) [], rfl, rfl, by
    norm_num [IngressArchiveJob.estimated_transfer_rate, permCexA, permCexB,
      pySortSamples, List.insertionSort, List.orderedInsert, sampleLE]⟩

/-- A concrete egress job: bandwidth token value 1, started at 0. -/
def egressCexJob : EgressArchiveJob :=
  { plot_id := "p", plot_k := 2, plot_timestamp := 0, source_disk := "/s",
    dest_disk := "/d", start_timestamp := 0, bw_limit := 1, timestamp := 0 }

/-- C7 counterexample.  One elapsed second at parsed limit 1: the code
computes `min(1 * 1 * 1000 * 0.8 / 4, 1) = 1`, while the claim's formula
(without the factor 1000) yields `1/5`. -/
theorem egress_progress_claim_cex :
    egressCexJob.progress 1 ≠ egressProgressClaimFormula 1 egressCexJob := by
  norm_num [EgressArchiveJob.progress, egressProgressClaimFormula, egressCexJob,
    get_plotsize, min_def, max_def]

theorem egress_progress_formula_witness :
    egressCexJob.progress 1 =
      min (max (((1 - egressCexJob.start_timestamp) * (egressCexJob.bw_limit : ℚ) * 1000) *
        (4 / 5) / get_plotsize egressCexJob.plot_k) 0) 1 ∧
    0 ≤ egressCexJob.progress 1 ∧ egressCexJob.progress 1 ≤ 1 :=
  egress_progress_formula 1 egressCexJob (by norm_num [egressCexJob]) (by decide)

/-- A 9-token egress command line whose rate-limit token holds no `=`. -/
def egressCexCmd : List String :=
  ["rsync", "--bwlimit", "-a", "-P", "--remove-source-files", "-z", "x",
   "/s/plot-k32-2021-01-02-03-04-ab.plot", "/d/"]

/-- C9 counterexample.  A 9-token candidate with a malformed rate-limit
token is **not** skipped silently: `int(split[1].split('=')[1])` raises
(modelled `.error ()`), aborting the cycle. -/
theorem egress_candidate_raise_cex :
    egressCexCmd.length = 9 ∧ parseEgressProc egressCexCmd 0 0 = .error () :=
  ⟨by decide, by rfl⟩

theorem egress_candidate_skip_spec_witness :
    parseEgressProc ["rsync"] 0 0 = .ok none :=
  (egress_candidate_skip_spec ["rsync"] 0 0).1 (by decide)

/-! ## Claim C2: lemmas about fixed-width digit fields -/

lemma digitChar_isDigit {d : Nat} (h : d < 10) : (Nat.digitChar d).isDigit = true := by
  interval_cases d <;> decide

lemma digitVal_digitChar {d : Nat} (h : d < 10) : digitVal (Nat.digitChar d) = d := by
  interval_cases d <;> decide

lemma isDigit_toNat_bounds {c : Char} (h : c.isDigit = true) :
    48 ≤ c.toNat ∧ c.toNat ≤ 57 := by
  simp only [Char.isDigit, Bool.and_eq_true, decide_eq_true_eq] at h
  exact h

lemma digitVal_lt_ten {c : Char} (h : c.isDigit = true) : digitVal c < 10 := by
  have := isDigit_toNat_bounds h
  rw [digitVal]
  omega

lemma digitChar_digitVal {c : Char} (h : c.isDigit = true) :
    Nat.digitChar (digitVal c) = c := by
  obtain ⟨hb1, hb2⟩ := isDigit_toNat_bounds h
  rw [digitVal, ← Char.ofNat_toNat c]
  generalize c.toNat = n at hb1 hb2 ⊢
  interval_cases n <;> decide

lemma readFixedNat_encode : ∀ (w acc n : Nat) (rest : List Char), n < 10 ^ w →
    readFixedNat w acc (natToDigits w n ++ rest) = some (acc * 10 ^ w + n, rest)
  | 0, acc, n, rest, h => by
    have hn : n = 0 := by omega
    subst hn
    simp [natToDigits, readFixedNat]
  | w + 1, acc, n, rest, h => by
    have hp : 0 < 10 ^ w := Nat.pos_pow_of_pos w (by norm_num)
    have hd : n / 10 ^ w < 10 := by
      apply Nat.div_lt_of_lt_mul
      calc n < 10 ^ (w + 1) := h
        _ = 10 ^ w * 10 := pow_succ 10 w
    rw [natToDigits, List.cons_append, readFixedNat]
    rw [digitChar_isDigit hd, if_pos rfl, digitVal_digitChar hd]
    rw [readFixedNat_encode w _ (n % 10 ^ w) rest (Nat.mod_lt _ hp)]
    congr 2
    conv_rhs => rw [← Nat.div_add_mod n (10 ^ w)]
    rw [pow_succ]
    ring

lemma readFixedNat_encode0 (w n : Nat) {rest : List Char} (h : n < 10 ^ w) :
    readFixedNat w 0 (natToDigits w n ++ rest) = some (n, rest) := by
  have := readFixedNat_encode w 0 n rest h
  simpa using this

lemma readFixedNat_sound : ∀ (w acc : Nat) (cs : List Char) (v : Nat) (rest : List Char),
    readFixedNat w acc cs = some (v, rest) →
    ∃ n, n < 10 ^ w ∧ v = acc * 10 ^ w + n ∧ cs = natToDigits w n ++ rest
  | 0, acc, cs, v, rest, h => by
    simp only [readFixedNat, Option.some_inj, Prod.mk.injEq] at h
    exact ⟨0, by norm_num, by omega, by simp [natToDigits, h.2]⟩
  | w + 1, acc, [], v, rest, h => by
    simp [readFixedNat] at h
  | w + 1, acc, c :: cs, v, rest, h => by
    rw [readFixedNat] at h
    by_cases hdig : c.isDigit = true
    · rw [if_pos hdig] at h
      obtain ⟨m, hm, hv, hcs⟩ := readFixedNat_sound w _ cs v rest h
      have hp : 0 < 10 ^ w := Nat.pos_pow_of_pos w (by norm_num)
      have hdv : digitVal c < 10 := digitVal_lt_ten hdig
      refine ⟨digitVal c * 10 ^ w + m, ?_, ?_, ?_⟩
      · calc digitVal c * 10 ^ w + m < digitVal c * 10 ^ w + 10 ^ w := by omega
          _ = (digitVal c + 1) * 10 ^ w := (Nat.succ_mul _ _).symm
          _ ≤ 10 * 10 ^ w := Nat.mul_le_mul_right _ (by omega)
          _ = 10 ^ (w + 1) := by rw [pow_succ]; ring
      · rw [hv, pow_succ]
        ring
      · have hdiv : (digitVal c * 10 ^ w + m) / 10 ^ w = digitVal c := by
          rw [Nat.mul_comm, Nat.mul_add_div hp, Nat.div_eq_of_lt hm]
          omega
        have hmod : (digitVal c * 10 ^ w + m) % 10 ^ w = m := by
          rw [Nat.mul_comm, Nat.mul_add_mod, Nat.mod_eq_of_lt hm]
        rw [natToDigits, hdiv, hmod, digitChar_digitVal hdig, hcs, List.cons_append]
    · rw [if_neg hdig] at h
      exact absurd h (by simp)

lemma expectChar_cons (c : Char) (rest : List Char) :
    expectChar c (c :: rest) = some rest := by
  simp [expectChar]

lemma expectChar_sound {c : Char} {cs rest : List Char}
    (h : expectChar c cs = some rest) : cs = c :: rest := by
  cases cs with
  | nil => simp [expectChar] at h
  | cons x xs =>
    rw [expectChar] at h
    split at h
    · next heq =>
      cases h
      rw [heq]
    · exact absurd h (by simp)

lemma expectStr_append : ∀ (p rest : List Char), expectStr p (p ++ rest) = some rest
  | [], rest => rfl
  | c :: ps, rest => by
    rw [List.cons_append, expectStr, if_pos rfl]
    exact expectStr_append ps rest

lemma expectStr_sound : ∀ {p cs rest : List Char},
    expectStr p cs = some rest → cs = p ++ rest
  | [], cs, rest, h => by
    simp only [expectStr, Option.some_inj] at h
    simp [h]
  | c :: ps, [], rest, h => by simp [expectStr] at h
  | c :: ps, x :: cs, rest, h => by
    rw [expectStr] at h
    split at h
    · next heq =>
      rw [List.cons_append, heq, expectStr_sound h]
    · exact absurd h (by simp)

lemma takeWordRun_append : ∀ (ws rest : List Char), ws.all isWordChar = true →
    (rest = [] ∨ ∃ d rs, rest = d :: rs ∧ isWordChar d = false) →
    takeWordRun (ws ++ rest) = (ws, rest)
  | [], rest, _, hrest => by
    rcases hrest with rfl | ⟨d, rs, rfl, hd⟩
    · rfl
    · simp [takeWordRun, hd]
  | w :: ws, rest, hall, hrest => by
    simp only [List.all_cons, Bool.and_eq_true] at hall
    rw [List.cons_append, takeWordRun]
    simp only [hall.1, if_true, takeWordRun_append ws rest hall.2 hrest]

lemma takeWordRun_sound : ∀ {cs w r : List Char}, takeWordRun cs = (w, r) →
    cs = w ++ r ∧ w.all isWordChar = true ∧
      (r = [] ∨ ∃ d rs, r = d :: rs ∧ isWordChar d = false)
  | [], w, r, h => by
    rw [takeWordRun] at h
    cases h
    exact ⟨rfl, rfl, Or.inl rfl⟩
  | c :: cs, w, r, h => by
    rw [takeWordRun] at h
    by_cases hc : isWordChar c = true
    · rw [if_pos hc] at h
      obtain ⟨w', r', hw'⟩ : ∃ w' r', takeWordRun cs = (w', r') :=
        ⟨(takeWordRun cs).1, (takeWordRun cs).2, rfl⟩
      rw [hw'] at h
      cases h
      obtain ⟨hcs, hall, hrest⟩ := takeWordRun_sound hw'
      exact ⟨by rw [List.cons_append, hcs], by simp [List.all_cons, hc, hall], hrest⟩
    · rw [if_neg hc] at h
      cases h
      exact ⟨rfl, rfl, Or.inr ⟨c, cs, rfl, by simpa using hc⟩⟩

lemma takeWordRun_all {ws : List Char} (h : ws.all isWordChar = true) :
    takeWordRun ws = (ws, []) := by
  have := takeWordRun_append ws [] h (Or.inl rfl)
  simpa using this

lemma asString_toList (s : String) : s.toList.asString = s := rfl

lemma toList_asString (l : List Char) : l.asString.toList = l := rfl

lemma wfFieldsB_spec {f : PlotFields} (h : wfFieldsB f = true) :
    f.disk < 10 ^ 3 ∧ f.plot_k < 10 ^ 2 ∧ f.year < 10 ^ 4 ∧ f.month < 10 ^ 2 ∧
    f.day < 10 ^ 2 ∧ f.hour < 10 ^ 2 ∧ f.minute < 10 ^ 2 ∧
    f.plot_id.toList.isEmpty = false ∧ f.plot_id.toList.all isWordChar = true ∧
    f.job_id.toList.isEmpty = false ∧ f.job_id.toList.all isWordChar = true := by
  simp only [wfFieldsB, Bool.and_eq_true, decide_eq_true_eq, Bool.not_eq_true'] at h
  obtain ⟨⟨⟨⟨⟨⟨⟨⟨⟨⟨hd, hk⟩, hy⟩, hmo⟩, hda⟩, hh⟩, hmi⟩, hpz⟩, hpw⟩, hjz⟩, hjw⟩ := h
  exact ⟨by norm_num; exact hd, by norm_num; exact hk, by norm_num; exact hy,
    by norm_num; exact hmo, by norm_num; exact hda, by norm_num; exact hh,
    by norm_num; exact hmi, hpz, hpw, hjz, hjw⟩

lemma parsePlotName_encode {f : PlotFields} (h : wfFieldsB f = true) :
    parsePlotName (encodePlotBody f) = some f := by
  obtain ⟨h1, h2, h3, h4, h5, h6, h7, hpz, hpw, hjz, hjw⟩ := wfFieldsB_spec h
  have hsep : litDotPlotDot ++ f.job_id.toList = [] ∨
      ∃ d rs, litDotPlotDot ++ f.job_id.toList = d :: rs ∧ isWordChar d = false :=
    Or.inr ⟨'.', ['p', 'l', 'o', 't', '.'] ++ f.job_id.toList, rfl, by decide⟩
  rw [encodePlotBody, parsePlotName]
  simp only [List.append_assoc, List.cons_append, readFixedNat_encode0 3 f.disk h1,
    expectStr_append,
    readFixedNat_encode0 2 f.plot_k h2, List.cons_append, expectChar_cons,
    readFixedNat_encode0 4 f.year h3, readFixedNat_encode0 2 f.month h4,
    readFixedNat_encode0 2 f.day h5, readFixedNat_encode0 2 f.hour h6,
    readFixedNat_encode0 2 f.minute h7,
    takeWordRun_append f.plot_id.toList (litDotPlotDot ++ f.job_id.toList) hpw hsep,
    hpz, Bool.false_eq_true, if_false, takeWordRun_all hjw, hjz, Bool.or_self,
    asString_toList, List.isEmpty_nil, Bool.not_true, Bool.or_false, Bool.false_or]

lemma parsePlotName_sound : ∀ {cs : List Char} {f : PlotFields},
    parsePlotName cs = some f →
    wfFieldsB f = true ∧ cs = encodePlotBody f := by
  intro cs f h
  rw [parsePlotName] at h
  cases e1 : readFixedNat 3 0 cs with
  | none => simp [e1] at h
  | some p1 =>
  obtain ⟨disk, cs1⟩ := p1
  simp only [e1] at h
  cases e2 : expectStr litSlashDotPlotK cs1 with
  | none => simp [e2] at h
  | some cs2 =>
  simp only [e2] at h
  cases e3 : readFixedNat 2 0 cs2 with
  | none => simp [e3] at h
  | some p3 =>
  obtain ⟨k, cs3⟩ := p3
  simp only [e3] at h
  cases e4 : expectChar '-' cs3 with
  | none => simp [e4] at h
  | some cs4 =>
  simp only [e4] at h
  cases e5 : readFixedNat 4 0 cs4 with
  | none => simp [e5] at h
  | some p5 =>
  obtain ⟨yr, cs5⟩ := p5
  simp only [e5] at h
  cases e6 : expectChar '-' cs5 with
  | none => simp [e6] at h
  | some cs6 =>
  simp only [e6] at h
  cases e7 : readFixedNat 2 0 cs6 with
  | none => simp [e7] at h
  | some p7 =>
  obtain ⟨mo, cs7⟩ := p7
  simp only [e7] at h
  cases e8 : expectChar '-' cs7 with
  | none => simp [e8] at h
  | some cs8 =>
  simp only [e8] at h
  cases e9 : readFixedNat 2 0 cs8 with
  | none => simp [e9] at h
  | some p9 =>
  obtain ⟨dy, cs9⟩ := p9
  simp only [e9] at h
  cases e10 : expectChar '-' cs9 with
  | none => simp [e10] at h
  | some cs10 =>
  simp only [e10] at h
  cases e11 : readFixedNat 2 0 cs10 with
  | none => simp [e11] at h
  | some p11 =>
  obtain ⟨hr, cs11⟩ := p11
  simp only [e11] at h
  cases e12 : expectChar '-' cs11 with
  | none => simp [e12] at h
  | some cs12 =>
  simp only [e12] at h
  cases e13 : readFixedNat 2 0 cs12 with
  | none => simp [e13] at h
  | some p13 =>
  obtain ⟨mi, cs13⟩ := p13
  simp only [e13] at h
  cases e14 : expectChar '-' cs13 with
  | none => simp [e14] at h
  | some cs14 =>
  simp only [e14] at h
  cases e15 : takeWordRun cs14 with
  | mk pid cs15 =>
  simp only [e15] at h
  by_cases hpz : pid.isEmpty = true
  · simp [hpz] at h
  · have hpz' : pid.isEmpty = false := by simpa using hpz
    simp only [hpz', Bool.false_eq_true, if_false] at h
    cases e16 : expectStr litDotPlotDot cs15 with
    | none => simp [e16] at h
    | some cs16 =>
    simp only [e16] at h
    cases e17 : takeWordRun cs16 with
    | mk jid rest =>
    simp only [e17] at h
    by_cases hg : (jid.isEmpty || !rest.isEmpty) = true
    · simp [hg] at h
    · have hg' : (jid.isEmpty || !rest.isEmpty) = false := by simpa using hg
      simp only [hg', Bool.false_eq_true, if_false] at h
      obtain ⟨hjz, hrz⟩ := Bool.or_eq_false_iff.mp hg'
      have hrest : rest = [] := by
        rw [Bool.not_eq_false'] at hrz
        exact List.isEmpty_iff.mp hrz
      injection h with h
      subst h
      obtain ⟨n1, hn1, hv1, hc1⟩ := readFixedNat_sound _ _ _ _ _ e1
      simp only [Nat.zero_mul, Nat.zero_add] at hv1
      subst hv1
      have hc2 := expectStr_sound e2
      obtain ⟨n3, hn3, hv3, hc3⟩ := readFixedNat_sound _ _ _ _ _ e3
      simp only [Nat.zero_mul, Nat.zero_add] at hv3
      subst hv3
      have hc4 := expectChar_sound e4
      obtain ⟨n5, hn5, hv5, hc5⟩ := readFixedNat_sound _ _ _ _ _ e5
      simp only [Nat.zero_mul, Nat.zero_add] at hv5
      subst hv5
      have hc6 := expectChar_sound e6
      obtain ⟨n7, hn7, hv7, hc7⟩ := readFixedNat_sound _ _ _ _ _ e7
      simp only [Nat.zero_mul, Nat.zero_add] at hv7
      subst hv7
      have hc8 := expectChar_sound e8
      obtain ⟨n9, hn9, hv9, hc9⟩ := readFixedNat_sound _ _ _ _ _ e9
      simp only [Nat.zero_mul, Nat.zero_add] at hv9
      subst hv9
      have hc10 := expectChar_sound e10
      obtain ⟨n11, hn11, hv11, hc11⟩ := readFixedNat_sound _ _ _ _ _ e11
      simp only [Nat.zero_mul, Nat.zero_add] at hv11
      subst hv11
      have hc12 := expectChar_sound e12
      obtain ⟨n13, hn13, hv13, hc13⟩ := readFixedNat_sound _ _ _ _ _ e13
      simp only [Nat.zero_mul, Nat.zero_add] at hv13
      subst hv13
      have hc14 := expectChar_sound e14
      obtain ⟨hc15, hpw, -⟩ := takeWordRun_sound e15
      have hc16 := expectStr_sound e16
      obtain ⟨hc17, hjw, -⟩ := takeWordRun_sound e17
      constructor
      · simp only [wfFieldsB, Bool.and_eq_true, decide_eq_true_eq,
          Bool.not_eq_true', toList_asString]
        refine ⟨⟨⟨⟨⟨⟨⟨⟨⟨⟨?_, ?_⟩, ?_⟩, ?_⟩, ?_⟩, ?_⟩, ?_⟩, hpz'⟩, hpw⟩, hjz⟩, hjw⟩
        · norm_num at hn1
          exact hn1
        · norm_num at hn3
          exact hn3
        · norm_num at hn5
          exact hn5
        · norm_num at hn7
          exact hn7
        · norm_num at hn9
          exact hn9
        · norm_num at hn11
          exact hn11
        · norm_num at hn13
          exact hn13
      · rw [hc1, hc2, hc3, hc4, hc5, hc6, hc7, hc8, hc9, hc10, hc11, hc12, hc13,
          hc14, hc15, hc16, hc17, hrest, encodePlotBody]
        simp only [toList_asString, List.append_assoc, List.cons_append,
          List.append_nil]

lemma parsePlotPath_encode (root : List Char) {f : PlotFields}
    (h : wfFieldsB f = true) :
    parsePlotPath root (root ++ encodePlotBody f) = some f := by
  rw [parsePlotPath]
  simp only [expectStr_append]
  exact parsePlotName_encode h

lemma parsePlotPath_sound {root cs : List Char} {f : PlotFields}
    (h : parsePlotPath root cs = some f) :
    wfFieldsB f = true ∧ cs = root ++ encodePlotBody f := by
  rw [parsePlotPath] at h
  cases e : expectStr root cs with
  | none => simp [e] at h
  | some rest =>
    simp only [e] at h
    obtain ⟨hwf, hb⟩ := parsePlotName_sound h
    exact ⟨hwf, by rw [expectStr_sound e, hb]⟩

lemma conforming_wf {f : PlotFields} (h : conformingFieldsB f = true) :
    wfFieldsB f = true := by
  simp only [conformingFieldsB, Bool.and_eq_true] at h
  simp only [wfFieldsB, Bool.and_eq_true]
  obtain ⟨⟨⟨⟨⟨⟨⟨⟨⟨⟨h1, h2⟩, h3⟩, h4⟩, h5⟩, h6⟩, h7⟩, h8⟩, h9⟩, h10⟩, h11⟩ := h
  refine ⟨⟨⟨⟨⟨⟨⟨⟨⟨⟨h1, h2⟩, h3⟩, h4⟩, h5⟩, h6⟩, h7⟩, h8⟩, ?_⟩, h10⟩, ?_⟩
  · rw [List.all_eq_true] at h9 ⊢
    intro c hc
    simp [isWordChar, h9 c hc]
  · rw [List.all_eq_true] at h11 ⊢
    intro c hc
    simp [isWordChar, h11 c hc]

lemma toList_encodePlotPathStr (root : String) (f : PlotFields) :
    (encodePlotPathStr root f).toList = root.toList ++ encodePlotBody f := rfl

lemma string_eq_of_toList {s t : String} (h : s.toList = t.toList) : s = t := by
  cases s
  cases t
  exact congrArg String.mk h

/-- C2.  For every conforming marker path — any root treated as a literal
prefix, three-digit disk index, two-digit k, minute-resolution date fields
of the fixed widths, nonempty alphanumeric `plotId` and `jobId` — the
ingress filename parse recovers exactly the encoded fields (round trip);
and a parse succeeds **only** on paths that are such encodings (of
word-character identifiers), so every other path (wrong digit widths,
missing dot-prefix marker, extra path segments, …) yields `none`, the
non-exceptional no-match outcome. -/
theorem filename_codec_roundtrip (root s : String) (f : PlotFields)
    (hf : conformingFieldsB f = true) :
    parsePlotPathStr root (encodePlotPathStr root f) = some f ∧
    (∀ g, parsePlotPathStr root s = some g →
      wfFieldsB g = true ∧ s = encodePlotPathStr root g) := by
  constructor
  · rw [parsePlotPathStr, toList_encodePlotPathStr]
    exact parsePlotPath_encode root.toList (conforming_wf hf)
  · intro g hg
    rw [parsePlotPathStr] at hg
    obtain ⟨hwf, hb⟩ := parsePlotPath_sound hg
    refine ⟨hwf, string_eq_of_toList ?_⟩
    rw [hb, toList_encodePlotPathStr]

def codecWitnessFields : PlotFields :=
  ⟨3, 32, 2021, 1, 2, 3, 4, "abc", "j1"⟩

def codecWitnessPath : String := encodePlotPathStr "/r/" codecWitnessFields

theorem filename_codec_roundtrip_witness :
    parsePlotPathStr "/r/" (encodePlotPathStr "/r/" codecWitnessFields) =
      some codecWitnessFields ∧
    (wfFieldsB codecWitnessFields = true ∧
      codecWitnessPath = encodePlotPathStr "/r/" codecWitnessFields) :=
  ⟨(filename_codec_roundtrip "/r/" codecWitnessPath codecWitnessFields (by decide)).1,
   (filename_codec_roundtrip "/r/" codecWitnessPath codecWitnessFields (by decide)).2
     codecWitnessFields (by decide)⟩
